import Mathlib

/-!
# Verification development for the captive-core service wiring and the migration helpers

Shallow embedding of

* `exp/services/captivecore/main.go` (the `captivecore` command: option handling,
  engine configuration, optional ledger hash store, stop hook),
* `services/regulated-assets-approval-server/internal/db/dbmigrate/dbmigrate.go`
  (`PlanMigration`, `Migrate`),
* the Request Coordinator of the design document (modelled from the document, its code
  lives in the `internal` package).

Go strings are byte sequences; calls into other packages are parameters of the model and
the order in which the command performs them is recorded as a list of events.
-/

/-- A Go string: a finite sequence of bytes. -/
abbrev GoString := List UInt8

/-- A Go error value (non-nil), identified by its message. -/
abbrev GoError := String

/-! ## Package `strings`: the paths taken by `strings.Split(s, ",")` -/

namespace strings

/-- Go `strings.IndexByte(s, c)`: index of the first `c` in `s`, or `-1`.
`strings.Index(s, sep)` is this function when `len(sep) == 1`. -/
def IndexByte : GoString → UInt8 → Int
  | [], _ => -1
  | b :: s, c =>
    if b = c then 0
    else
      let m := IndexByte s c
      if m < 0 then -1 else m + 1

/-- Go `bytealg.CountString(s, c)`: number of bytes of `s` equal to `c`.
`strings.Count(s, sep)` is this function when `len(sep) == 1`. -/
def CountString : GoString → UInt8 → Nat
  | [], _ => 0
  | b :: s, c => if b = c then CountString s c + 1 else CountString s c

/-- The `for i < n` loop of `genSplit`, with `k = n - i` iterations left: cut at the next
separator, or stop when there is none; the rest of the string is the last entry. -/
def genSplit.loop (sep : UInt8) (sepSave : Nat) : Nat → GoString → List GoString
  | 0, s => [s]
  | k + 1, s =>
    let m := IndexByte s sep
    if m < 0 then [s]
    else s.take (m.toNat + sepSave) :: genSplit.loop sep sepSave k (s.drop (m.toNat + 1))

/-- Go `strings.genSplit(s, sep, sepSave, n)` for a one-byte separator `sep`.
A nil slice is the empty list. -/
def genSplit (s : GoString) (sep : UInt8) (sepSave : Nat) (n : Int) : List GoString :=
  if n = 0 then []
  else
    let n := if n < 0 then (CountString s sep : Int) + 1 else n
    let n := if n > (s.length : Int) + 1 then (s.length : Int) + 1 else n
    genSplit.loop sep sepSave (n - 1).toNat s

/-- Go `strings.Split(s, sep)` for a one-byte separator: `genSplit(s, sep, 0, -1)`. -/
def Split (s : GoString) (sep : UInt8) : List GoString :=
  genSplit s sep 0 (-1)

/-- Go `strings.Join(elems, sep)`: the elements concatenated with `sep` between
neighbours. Used only to state what a comma-separated list denotes. -/
def Join : List GoString → GoString → GoString
  | [], _ => []
  | [e], _ => e
  | e :: e2 :: es, sep => e ++ sep ++ Join (e2 :: es) sep

end strings

/-! ## `exp/services/captivecore/main.go` -/

namespace captivecore

/-- The byte `,`. -/
def comma : UInt8 := 44

/-- The string literal `"postgres"`. -/
def postgres : GoString := [112, 111, 115, 116, 103, 114, 101, 115]

/-- A non-nil `*db.Session`. A nil pointer is `none : Option Session`. -/
structure Session where
  id : Nat
deriving DecidableEq, Repr

/-- A non-nil `*ledgerbackend.CaptiveStellarCore`. -/
structure Core where
  id : Nat
deriving DecidableEq, Repr

/-- Values of the interface `ledgerbackend.TrustedLedgerHashStore` the command can
build: the result of `NewHorizonDBLedgerHashStore(dbConn)`. The nil interface value is
`none : Option LedgerHashStore`. -/
inductive LedgerHashStore where
  | horizonDB (dbConn : Option Session)
deriving DecidableEq, Repr

/-- Go `ledgerbackend.NewHorizonDBLedgerHashStore`. -/
def NewHorizonDBLedgerHashStore (dbConn : Option Session) : LedgerHashStore :=
  LedgerHashStore.horizonDB dbConn

/-- The fields of `ledgerbackend.CaptiveCoreConfig` the command sets. `Log` holds the
value of the logger's `subservice` field. -/
structure CaptiveCoreConfig where
  BinaryPath : GoString
  ConfigAppendPath : GoString
  NetworkPassphrase : GoString
  HistoryArchiveURLs : List GoString
  CheckpointFrequency : Nat
  HTTPPort : Nat
  Log : String
  LedgerHashStore : Option LedgerHashStore
deriving DecidableEq, Repr

/-- What viper holds for each option when the command's `Run` starts. -/
structure Options where
  port : Int
  networkPassphrase : GoString
  binaryPath : GoString
  configAppendPath : GoString
  historyArchiveURLs : GoString
  logLevel : GoString
  dbURL : GoString
  stellarCoreHTTPPort : Nat
  checkpointFrequency : Nat
deriving DecidableEq, Repr

/-- The calls of `Run` into other packages, each returning Go's (value, error) pair:
`logrus.ParseLevel`, `db.Open` and `ledgerbackend.NewCaptive`. -/
structure Env where
  ParseLevel : GoString → Nat × Option GoError
  Open : GoString → GoString → Option Session × Option GoError
  NewCaptive : CaptiveCoreConfig → Option Core × Option GoError

/-- A non-nil `*internal.CaptiveCoreAPI`, built over the engine. -/
structure CaptiveCoreAPI where
  core : Option Core
deriving DecidableEq, Repr

/-- Calls observed while the command runs, in program order. -/
inductive Event where
  | dbOpen (dialect dsn : GoString) (dbConn : Option Session) (err : Option GoError)
  | newHashStore (dbConn : Option Session)
  | newCaptive (config : CaptiveCoreConfig)
  | newAPI (core : Option Core)
  | httpRun (port : Int)
  | invalidConfig (name : String)
  | fatal (msg : String)
  | apiShutdown (api : CaptiveCoreAPI)
  | dbClose (dbConn : Session)
deriving DecidableEq, Repr

/-- How `Run` ends: `logger.Fatal` exits the process, or `supporthttp.Run` is serving
with the stop hook holding `api` and `dbConn`. -/
inductive Outcome where
  | exited
  | serving (api : CaptiveCoreAPI) (dbConn : Option Session)
deriving DecidableEq, Repr

/-- The `CustomSetValue` of the `history-archive-urls` option:
`strings.Split(viper.GetString(co.Name), ",")`. -/
def historyArchiveURLsSetValue (stringOfUrls : GoString) : List GoString :=
  strings.Split stringOfUrls comma

/-- Go `configOpts.Require()` on the option table of `main`: the name of the first
option declared `Required: true` whose value is blank, on which the command exits, or
`none` when every required option has a value. The body of `Require` (package
`support/config`) is not among the sources; the required options are read from the
table: `network-passphrase`, `stellar-core-binary-path` and `history-archive-urls`,
and `port`, an int with a default, which is never blank. -/
def Require (o : Options) : Option String :=
  if o.networkPassphrase = [] then some "network-passphrase"
  else if o.binaryPath = [] then some "stellar-core-binary-path"
  else if o.historyArchiveURLs = [] then some "history-archive-urls"
  else none

/-- The value of the variable `historyArchiveURLs` once `configOpts.SetValues()` has
run the option's `CustomSetValue`; `none` when the command exits in
`configOpts.Require()`, before any value is set. -/
def configuredHistoryArchiveURLs (o : Options) : Option (List GoString) :=
  match Require o with
  | some _ => none
  | none => some (historyArchiveURLsSetValue o.historyArchiveURLs)

/-- The `captiveConfig` struct literal of `Run`, with the option variables as
`configOpts.SetValues()` leaves them. `LedgerHashStore` is not set by the literal. -/
def captiveConfig (o : Options) : CaptiveCoreConfig :=
  { BinaryPath := o.binaryPath
    ConfigAppendPath := o.configAppendPath
    NetworkPassphrase := o.networkPassphrase
    HistoryArchiveURLs := historyArchiveURLsSetValue o.historyArchiveURLs
    CheckpointFrequency := o.checkpointFrequency
    HTTPPort := o.stellarCoreHTTPPort
    Log := "stellar-core"
    LedgerHashStore := none }

/-- The tail of `Run` from `ledgerbackend.NewCaptive(captiveConfig)` on. -/
def startCore (env : Env) (o : Options) (config : CaptiveCoreConfig)
    (dbConn : Option Session) : List Event × Outcome :=
  match env.NewCaptive config with
  | (_, some _) =>
    ([Event.newCaptive config, Event.fatal "Could not create captive core instance"],
      Outcome.exited)
  | (core, none) =>
    ([Event.newCaptive config, Event.newAPI core, Event.httpRun o.port],
      Outcome.serving { core := core } dbConn)

/-- The body of `Run` from `configOpts.SetValues()` on, reached when
`configOpts.Require()` returned. -/
def runConfigured (env : Env) (o : Options) : List Event × Outcome :=
  match env.ParseLevel o.logLevel with
  | (_, some _) => ([Event.fatal "Could not parse log-level"], Outcome.exited)
  | (_, none) =>
    if o.dbURL.length > 0 then
      match env.Open postgres o.dbURL with
      | (dbConn, some err) =>
        ([Event.dbOpen postgres o.dbURL dbConn (some err),
          Event.fatal "Could not create db connection instance"], Outcome.exited)
      | (dbConn, none) =>
        let config :=
          { captiveConfig o with LedgerHashStore := some (NewHorizonDBLedgerHashStore dbConn) }
        let r := startCore env o config dbConn
        (Event.dbOpen postgres o.dbURL dbConn none :: Event.newHashStore dbConn :: r.1, r.2)
    else
      startCore env o (captiveConfig o) none

/-- The `Run` function of the `captivecore` command: the events it performs and how it
ends. `configOpts.Require()` comes first and exits the command on a blank required
option. -/
def Run (env : Env) (o : Options) : List Event × Outcome :=
  match Require o with
  | some name => ([Event.invalidConfig name], Outcome.exited)
  | none => runConfigured env o

/-- The `OnStopping` hook passed to `supporthttp.Run`. -/
def OnStopping (api : CaptiveCoreAPI) (dbConn : Option Session) : List Event :=
  Event.apiShutdown api ::
    (match dbConn with
     | some c => [Event.dbClose c]
     | none => [])

/-- The events of one invocation of the stop hook of a run: none when the run
exited before serving. -/
def stopEvents : Outcome → List Event
  | Outcome.exited => []
  | Outcome.serving api dbConn => OnStopping api dbConn

/-- The connections `db.Open` handed out in a trace. -/
def opened : List Event → List Session
  | [] => []
  | Event.dbOpen _ _ (some c) none :: es => c :: opened es
  | _ :: es => opened es

/-- The connections closed in a trace. -/
def closed : List Event → List Session
  | [] => []
  | Event.dbClose c :: es => c :: closed es
  | _ :: es => closed es

/-- The engine configurations handed to `ledgerbackend.NewCaptive` in a trace. -/
def engineConfigs : List Event → List CaptiveCoreConfig
  | [] => []
  | Event.newCaptive c :: es => c :: engineConfigs es
  | _ :: es => engineConfigs es

/-- The API shutdowns in a trace. -/
def shutdowns : List Event → List CaptiveCoreAPI
  | [] => []
  | Event.apiShutdown a :: es => a :: shutdowns es
  | _ :: es => shutdowns es

/-- An environment in which every external call succeeds. -/
def okEnv : Env :=
  { ParseLevel := fun _ => (4, none)
    Open := fun _ _ => (some { id := 1 }, none)
    NewCaptive := fun _ => (some { id := 1 }, none) }

/-- Options with a passphrase (`T`), a binary path (`/c`), a database URL (`db`) and
two archive URLs (`a,b`). -/
def sampleOptions : Options :=
  { port := 8000
    networkPassphrase := [84]
    binaryPath := [47, 99]
    configAppendPath := []
    historyArchiveURLs := [97, 44, 98]
    logLevel := [105, 110, 102, 111]
    dbURL := [100, 98]
    stellarCoreHTTPPort := 11626
    checkpointFrequency := 64 }

/-- The sample options with `history-archive-urls` left at its flag default, the empty
string. -/
def blankArchiveOptions : Options :=
  { sampleOptions with historyArchiveURLs := [] }

/-- The sample options with `history-archive-urls` set to `,a,,`: a leading, a doubled
and a trailing comma. -/
def commaOptions : Options :=
  { sampleOptions with historyArchiveURLs := [44, 97, 44, 44] }

end captivecore

/-! ## `services/regulated-assets-approval-server/internal/db/dbmigrate/dbmigrate.go` -/

namespace dbmigrate

/-- A non-nil `*sql.DB`. -/
structure SqlDB where
  id : Nat
deriving DecidableEq, Repr

/-- A `*sqlx.DB`: the embedded `*sql.DB` and the driver name it was opened with. -/
structure SqlxDB where
  DB : SqlDB
  driverName : GoString
deriving DecidableEq, Repr

/-- Go `(*sqlx.DB).DriverName()`. -/
def SqlxDB.DriverName (db : SqlxDB) : GoString := db.driverName

/-- Go `migrate.MigrationDirection`. -/
inductive MigrationDirection where
  | Up
  | Down
deriving DecidableEq, Repr

/-- Go `migrate.FileMigrationSource`. -/
structure FileMigrationSource where
  Dir : String
deriving DecidableEq, Repr

/-- The package variable `migrationSource`. -/
def migrationSource : FileMigrationSource :=
  { Dir := "internal/db/dbmigrate/migrations" }

/-- Go `migrate.PlannedMigration`: of the embedded migration only `Id` is read. -/
structure PlannedMigration where
  Id : GoString
deriving DecidableEq, Repr

/-- The two functions of `github.com/rubenv/sql-migrate` the package calls, as
parameters: `migrate.PlanMigration` returns (migrations, dbMap, err) and
`migrate.ExecMax` returns (applied, err). -/
structure MigrateLib where
  PlanMigration : SqlDB → GoString → FileMigrationSource → MigrationDirection → Int →
    List PlannedMigration × Unit × Option GoError
  ExecMax : SqlDB → GoString → FileMigrationSource → MigrationDirection → Int →
    Int × Option GoError

/-- Go `PlanMigration(db, dir, count)`. The result slice is `none` when nil. The loop
appends one `m.Id` per planned migration to the slice `ids`. -/
def PlanMigration (lib : MigrateLib) (db : SqlxDB) (dir : MigrationDirection) (count : Int) :
    Option (List GoString) × Option GoError :=
  match lib.PlanMigration db.DB db.DriverName migrationSource dir count with
  | (_, _, some err) => (none, some err)
  | (migrations, _, none) =>
    (some (migrations.foldl (fun ids m => ids ++ [m.Id]) []), none)

/-- Go `Migrate(db, dir, count)`. -/
def Migrate (lib : MigrateLib) (db : SqlxDB) (dir : MigrationDirection) (count : Int) :
    Int × Option GoError :=
  lib.ExecMax db.DB db.DriverName migrationSource dir count

/-- The migrations a library following the documented limit of `ExecMax` ("Will apply
at most `max` migrations. Pass 0 for no limit") runs when `pending` are outstanding:
the first `max` of them when `0 < max < len(pending)`, all of them otherwise. -/
def planLimit (pending : List PlannedMigration) (max : Int) : List PlannedMigration :=
  if 0 < max ∧ max < (pending.length : Int) then pending.take max.toNat else pending

/-- The dialect name `"postgres"`. -/
def postgresDialect : GoString := [112, 111, 115, 116, 103, 114, 101, 115]

/-- A value of the migration library over a postgres database with `pending`
migrations outstanding in the asked direction. A call with the dialect `postgres`
plans by `planLimit`, and `ExecMax` applies the plan and reports its length; a call with
another dialect fails before anything is planned or applied. -/
def limitLib (pending : List PlannedMigration) : MigrateLib :=
  { PlanMigration := fun _ dialect _ _ max =>
      if dialect = postgresDialect then (planLimit pending max, (), none)
      else ([], (), some "Unknown dialect")
    ExecMax := fun _ dialect _ _ max =>
      if dialect = postgresDialect then (((planLimit pending max).length : Int), none)
      else (0, some "Unknown dialect") }

/-- Two outstanding migrations. -/
def twoPending : List PlannedMigration := [{ Id := [49] }, { Id := [50] }]

/-- A database handle opened with the driver `postgres`. -/
def sampleDB : SqlxDB := { DB := { id := 1 }, driverName := postgresDialect }

end dbmigrate

/-! ## The Request Coordinator of the design document -/

namespace coordinator

/-- Modelled from the spec: the `LedgerRange` of the data model,
`{from uint32, to uint32 (0 = unbounded/live)}`, with the fields written `from_` and
`to_`. The coordinator's code (package `internal`) is not among the sources. -/
structure LedgerRange where
  from_ : Nat
  to_ : Nat
deriving DecidableEq, Repr

/-- Modelled from the spec: the invariant of `LedgerRange`, `from >= 1`, and if
`to != 0` then `to >= from`, for two `uint32` values. -/
def LedgerRange.valid (r : LedgerRange) : Bool :=
  decide (1 ≤ r.from_) && (decide (r.to_ = 0) || decide (r.from_ ≤ r.to_)) &&
    decide (r.from_ < 4294967296) && decide (r.to_ < 4294967296)

/-- Modelled from the spec: a prepared range `p` already serves a requested range `r`
("already-prepared-or-superset"): `p` starts no later and ends no earlier. -/
def LedgerRange.covers (p r : LedgerRange) : Bool :=
  decide (p.from_ ≤ r.from_) && (decide (p.to_ = 0) || (decide (r.to_ ≠ 0) && decide (r.to_ ≤ p.to_)))

/-- Modelled from the spec: the `Ledger` of the data model, an opaque payload with a
sequence number. -/
structure Ledger where
  sequence : Nat
  payload : GoString
deriving DecidableEq, Repr

/-- Modelled from the spec: the error kinds of the error handling design. -/
inductive ErrorKind where
  | InvalidRange
  | NotPrepared
  | OutOfRange
  | EngineFailure
  | ShuttingDown
  | OracleUnavailable
deriving DecidableEq, Repr

/-- Modelled from the spec: the `ReplayEngine` capability the coordinator consumes,
over engine states `σ`; each call returns its answer and the engine's next state. Of
the four operations, `Prepare` and `NextLedger` use `PrepareRange` and `GetLedger`. -/
structure ReplayEngine (σ : Type) where
  PrepareRange : σ → LedgerRange → Option GoError × σ
  GetLedger : σ → Nat → Except GoError Ledger × σ

/-- Modelled from the spec: `CoordinatorState`,
`{preparedRange *LedgerRange, nextExpectedSeq uint32, closed bool}`. -/
structure CoordinatorState where
  preparedRange : Option LedgerRange
  nextExpectedSeq : Nat
  closed : Bool
deriving DecidableEq, Repr

/-- Modelled from the spec: the Request Coordinator: its `CoordinatorState`, the
recorded engine failure ("records them ... so that subsequent calls fail fast") and
the single engine instance it owns. -/
structure Coordinator (σ : Type) where
  state : CoordinatorState
  failure : Bool
  engine : σ

/-- Modelled from the spec: the coordinator at service start: nothing prepared, not
closed, no failure. -/
def Coordinator.start {σ : Type} (engine : σ) : Coordinator σ :=
  { state := { preparedRange := none, nextExpectedSeq := 0, closed := false }
    failure := false
    engine := engine }

/-- Modelled from the spec: the engine invocation of `Prepare`: the engine prepares the
range; an engine error is recorded as `EngineFailure`; on success the range replaces
`preparedRange` and the cursor `nextExpectedSeq` is set to its `from`. -/
def Prepare.install {σ : Type} (E : ReplayEngine σ) (c : Coordinator σ) (range : LedgerRange) :
    Option ErrorKind × Coordinator σ :=
  match E.PrepareRange c.engine range with
  | (some _, e) => (some ErrorKind.EngineFailure, { c with failure := true, engine := e })
  | (none, e) =>
    (none, { c with
      state := { c.state with preparedRange := some range, nextExpectedSeq := range.from_ }
      engine := e })

/-- Modelled from the spec: `Prepare(range)`. Rejected with `ShuttingDown` once closed
and with `EngineFailure` after a recorded failure; `InvalidRange` for a malformed range
or one that would rewind below `nextExpectedSeq`; success without an engine call for an
already-prepared-or-superset range; otherwise the engine prepares the range, and on
success it becomes the prepared range with the cursor at its `from`. -/
def Prepare {σ : Type} (E : ReplayEngine σ) (c : Coordinator σ) (range : LedgerRange) :
    Option ErrorKind × Coordinator σ :=
  if c.state.closed then (some ErrorKind.ShuttingDown, c)
  else if c.failure then (some ErrorKind.EngineFailure, c)
  else if !range.valid then (some ErrorKind.InvalidRange, c)
  else
    match c.state.preparedRange with
    | none => Prepare.install E c range
    | some p =>
      if range.from_ < c.state.nextExpectedSeq then (some ErrorKind.InvalidRange, c)
      else if p.covers range then (none, c)
      else Prepare.install E c range

/-- Modelled from the spec: `NextLedger()`: returns the ledger at `nextExpectedSeq` and
advances the `uint32` cursor by 1 on success. `NotPrepared` if no range covers the
sequence, `OutOfRange` if the prepared range is exhausted (the scenario
`{from:100, to:105}` serves 100..104), `EngineFailure` (recorded, terminal) if the
engine call errors or the ledger's sequence number is not the one requested. -/
def NextLedger {σ : Type} (E : ReplayEngine σ) (c : Coordinator σ) :
    Except ErrorKind Ledger × Coordinator σ :=
  if c.state.closed then (Except.error ErrorKind.ShuttingDown, c)
  else if c.failure then (Except.error ErrorKind.EngineFailure, c)
  else
    match c.state.preparedRange with
    | none => (Except.error ErrorKind.NotPrepared, c)
    | some r =>
      let seq := c.state.nextExpectedSeq
      if seq < r.from_ then (Except.error ErrorKind.NotPrepared, c)
      else if r.to_ ≠ 0 ∧ r.to_ ≤ seq then (Except.error ErrorKind.OutOfRange, c)
      else
        match E.GetLedger c.engine seq with
        | (Except.error _, e) =>
          (Except.error ErrorKind.EngineFailure, { c with failure := true, engine := e })
        | (Except.ok l, e) =>
          if l.sequence = seq then
            (Except.ok l, { c with
              state := { c.state with nextExpectedSeq := (seq + 1) % 4294967296 }
              engine := e })
          else (Except.error ErrorKind.EngineFailure, { c with failure := true, engine := e })

/-- The results of `n` consecutive `NextLedger` calls, in call order, and the
coordinator after them. -/
def NextLedgers {σ : Type} (E : ReplayEngine σ) :
    Nat → Coordinator σ → List (Except ErrorKind Ledger) × Coordinator σ
  | 0, c => ([], c)
  | n + 1, c =>
    let r := NextLedger E c
    let rs := NextLedgers E n r.2
    (r.1 :: rs.1, rs.2)

/-- The sequence number a call returned, `none` for a failed call. -/
def returnedSeq : Except ErrorKind Ledger → Option Nat
  | Except.ok l => some l.sequence
  | Except.error _ => none

/-- The error kind a call failed with, `none` for a successful call. -/
def failedWith : Except ErrorKind Ledger → Option ErrorKind
  | Except.ok _ => none
  | Except.error k => some k

/-- An engine that prepares every range and serves every sequence number asked for;
its state counts the calls made. -/
def healthyEngine : ReplayEngine Nat :=
  { PrepareRange := fun e _ => (none, e + 1)
    GetLedger := fun e seq => (Except.ok { sequence := seq, payload := [] }, e + 1) }

end coordinator

/-! ## Theorems: `strings.Split` and `strings.Join` -/

namespace strings

theorem IndexByte_ge_neg_one (s : GoString) (c : UInt8) : -1 ≤ IndexByte s c := by
  induction s with
  | nil => simp [IndexByte]
  | cons b s ih =>
    simp only [IndexByte]
    split_ifs <;> omega

theorem IndexByte_of_not_mem {s : GoString} {c : UInt8} (h : c ∉ s) : IndexByte s c = -1 := by
  induction s with
  | nil => simp [IndexByte]
  | cons b s ih =>
    simp only [List.mem_cons, not_or] at h
    have hb : ¬ b = c := fun e => h.1 e.symm
    simp [IndexByte, hb, ih h.2]

theorem IndexByte_append_sep {e : GoString} {c : UInt8} (h : c ∉ e) (t : GoString) :
    IndexByte (e ++ c :: t) c = e.length := by
  induction e with
  | nil => simp [IndexByte]
  | cons b e ih =>
    simp only [List.mem_cons, not_or] at h
    have hb : ¬ b = c := fun e => h.1 e.symm
    have ih2 := ih h.2
    rw [List.cons_append, IndexByte, if_neg hb]
    simp only [ih2, List.length_cons]
    split_ifs <;> push_cast <;> omega

theorem CountString_eq_count (s : GoString) (c : UInt8) : CountString s c = s.count c := by
  induction s with
  | nil => simp [CountString]
  | cons b s ih =>
    by_cases hb : b = c
    · simp [CountString, hb, ih]
    · simp [CountString, hb, ih, List.count_cons]

theorem CountString_le_length (s : GoString) (c : UInt8) : CountString s c ≤ s.length := by
  rw [CountString_eq_count]; exact List.count_le_length _ _

theorem Split_eq_loop (s : GoString) (c : UInt8) :
    Split s c = genSplit.loop c 0 (CountString s c) s := by
  have h := CountString_le_length s c
  unfold Split genSplit
  simp only [show ¬ ((-1 : Int) = 0) by decide, if_false, show ((-1 : Int) < 0) by decide, if_true]
  have : ¬ ((CountString s c : Int) + 1 > (s.length : Int) + 1) := by omega
  simp [this]

/-- A string is free of `c`, or it is a `c`-free piece, then `c`, then a rest. -/
theorem exists_cut (s : GoString) (c : UInt8) :
    c ∉ s ∨ ∃ e t, c ∉ e ∧ s = e ++ c :: t := by
  induction s with
  | nil => left; simp
  | cons b s ih =>
    by_cases hb : b = c
    · right; exact ⟨[], s, by simp, by simp [hb]⟩
    · rcases ih with h | ⟨e, t, he, rfl⟩
      · left; simp [h]; exact fun e => hb e.symm
      · right; refine ⟨b :: e, t, ?_, by simp⟩
        simp [he]; exact fun e => hb e.symm

theorem Split_of_not_mem {s : GoString} {c : UInt8} (h : c ∉ s) : Split s c = [s] := by
  rw [Split_eq_loop, CountString_eq_count, List.count_eq_zero_of_not_mem h]
  rfl

theorem Split_append_sep {e : GoString} {c : UInt8} (h : c ∉ e) (t : GoString) :
    Split (e ++ c :: t) c = e :: Split t c := by
  rw [Split_eq_loop, Split_eq_loop, CountString_eq_count, CountString_eq_count]
  have hc : (e ++ c :: t).count c = t.count c + 1 := by
    simp [List.count_append, List.count_eq_zero_of_not_mem h]
  rw [hc]
  simp only [genSplit.loop, IndexByte_append_sep h]
  simp


theorem cut_induction {P : GoString → Prop} (c : UInt8) (h0 : ∀ s, c ∉ s → P s)
    (h1 : ∀ e t, c ∉ e → P t → P (e ++ c :: t)) : ∀ s, P s := by
  have key : ∀ n (s : GoString), s.length = n → P s := by
    intro n
    induction n using Nat.strong_induction_on with
    | _ n ih =>
      intro s hn
      rcases exists_cut s c with hs | ⟨e, t, he, rfl⟩
      · exact h0 s hs
      · refine h1 e t he (ih t.length ?_ t rfl)
        rw [← hn]; simp; omega
  exact fun s => key s.length s rfl

theorem Split_ne_nil (s : GoString) (c : UInt8) : Split s c ≠ [] := by
  rcases exists_cut s c with hs | ⟨e, t, he, rfl⟩
  · simp [Split_of_not_mem hs]
  · simp [Split_append_sep he]

theorem Split_append (a b : GoString) (c : UInt8) :
    Split (a ++ c :: b) c = Split a c ++ Split b c := by
  induction a using cut_induction c with
  | h0 s hs => rw [Split_append_sep hs, Split_of_not_mem hs]; rfl
  | h1 e t he ih =>
    rw [List.append_assoc, List.cons_append, Split_append_sep he, ih, Split_append_sep he]
    rfl

theorem length_Split (s : GoString) (c : UInt8) : (Split s c).length = s.count c + 1 := by
  induction s using cut_induction c with
  | h0 s hs => simp [Split_of_not_mem hs, List.count_eq_zero_of_not_mem hs]
  | h1 e t he ih =>
    simp [Split_append_sep he, ih, List.count_append, List.count_eq_zero_of_not_mem he]

theorem not_mem_of_mem_Split (s : GoString) (c : UInt8) : ∀ e ∈ Split s c, c ∉ e := by
  induction s using cut_induction c with
  | h0 s hs => intro e he; simp [Split_of_not_mem hs] at he; subst he; exact hs
  | h1 e t he ih =>
    intro x hx
    rw [Split_append_sep he, List.mem_cons] at hx
    rcases hx with rfl | hx
    · exact he
    · exact ih x hx

theorem Join_cons_of_ne_nil (e : GoString) {l : List GoString} (hl : l ≠ []) (sep : GoString) :
    Join (e :: l) sep = e ++ sep ++ Join l sep := by
  cases l with
  | nil => exact absurd rfl hl
  | cons x xs => rfl

theorem Join_Split (s : GoString) (c : UInt8) : Join (Split s c) [c] = s := by
  induction s using cut_induction c with
  | h0 s hs => simp [Split_of_not_mem hs, Join]
  | h1 e t he ih =>
    rw [Split_append_sep he, Join_cons_of_ne_nil e (Split_ne_nil t c), ih]
    simp

theorem Split_unique (c : UInt8) :
    ∀ (l : List GoString), l ≠ [] → (∀ e ∈ l, c ∉ e) → Split (Join l [c]) c = l := by
  intro l
  induction l with
  | nil => intro h; exact absurd rfl h
  | cons e l ih =>
    intro _ hmem
    by_cases hl : l = []
    · subst hl
      simp only [Join]
      exact Split_of_not_mem (hmem e (by simp))
    · rw [Join_cons_of_ne_nil e hl, List.append_assoc, List.singleton_append,
        Split_append_sep (hmem e (by simp)), ih hl (fun x hx => hmem x (by simp [hx]))]

end strings

/-! ## Theorems: the `captivecore` command -/

namespace captivecore

theorem length_pos_iff_ne_nil (s : GoString) : s.length > 0 ↔ s ≠ [] := by
  cases s <;> simp

/-- The shape of a run past `Require`: the four ways it can proceed up to engine
construction. -/
theorem runConfigured_cases (env : Env) (o : Options) :
    ((env.ParseLevel o.logLevel).2 ≠ none ∧
      runConfigured env o = ([Event.fatal "Could not parse log-level"], Outcome.exited)) ∨
    ((env.ParseLevel o.logLevel).2 = none ∧ o.dbURL = [] ∧
      runConfigured env o = startCore env o (captiveConfig o) none) ∨
    ((env.ParseLevel o.logLevel).2 = none ∧ o.dbURL ≠ [] ∧
      (∃ err, (env.Open postgres o.dbURL).2 = some err ∧
        runConfigured env o = ([Event.dbOpen postgres o.dbURL (env.Open postgres o.dbURL).1 (some err),
          Event.fatal "Could not create db connection instance"], Outcome.exited))) ∨
    ((env.ParseLevel o.logLevel).2 = none ∧ o.dbURL ≠ [] ∧
      (env.Open postgres o.dbURL).2 = none ∧
      runConfigured env o =
        (Event.dbOpen postgres o.dbURL (env.Open postgres o.dbURL).1 none ::
          Event.newHashStore (env.Open postgres o.dbURL).1 ::
          (startCore env o { captiveConfig o with
            LedgerHashStore := some (NewHorizonDBLedgerHashStore (env.Open postgres o.dbURL).1) }
            (env.Open postgres o.dbURL).1).1,
         (startCore env o { captiveConfig o with
            LedgerHashStore := some (NewHorizonDBLedgerHashStore (env.Open postgres o.dbURL).1) }
            (env.Open postgres o.dbURL).1).2)) := by
  unfold runConfigured
  rcases hp : env.ParseLevel o.logLevel with ⟨ll, _ | perr⟩
  · by_cases hd : o.dbURL = []
    · right; left
      simp [hd]
    · right; right
      have hlen : o.dbURL.length > 0 := (length_pos_iff_ne_nil _).2 hd
      rcases ho : env.Open postgres o.dbURL with ⟨dbConn, _ | err⟩
      · right
        simp [hd, hlen, ho]
      · left
        simp [hd, hlen, ho]
  · left
    simp

/-- The shape of a run: the exit in `Require`, or the four ways past it. -/
theorem Run_cases (env : Env) (o : Options) :
    (∃ name, Require o = some name ∧
      Run env o = ([Event.invalidConfig name], Outcome.exited)) ∨
    ((env.ParseLevel o.logLevel).2 ≠ none ∧
      Run env o = ([Event.fatal "Could not parse log-level"], Outcome.exited)) ∨
    ((env.ParseLevel o.logLevel).2 = none ∧ o.dbURL = [] ∧
      Run env o = startCore env o (captiveConfig o) none) ∨
    ((env.ParseLevel o.logLevel).2 = none ∧ o.dbURL ≠ [] ∧
      (∃ err, (env.Open postgres o.dbURL).2 = some err ∧
        Run env o = ([Event.dbOpen postgres o.dbURL (env.Open postgres o.dbURL).1 (some err),
          Event.fatal "Could not create db connection instance"], Outcome.exited))) ∨
    ((env.ParseLevel o.logLevel).2 = none ∧ o.dbURL ≠ [] ∧
      (env.Open postgres o.dbURL).2 = none ∧
      Run env o =
        (Event.dbOpen postgres o.dbURL (env.Open postgres o.dbURL).1 none ::
          Event.newHashStore (env.Open postgres o.dbURL).1 ::
          (startCore env o { captiveConfig o with
            LedgerHashStore := some (NewHorizonDBLedgerHashStore (env.Open postgres o.dbURL).1) }
            (env.Open postgres o.dbURL).1).1,
         (startCore env o { captiveConfig o with
            LedgerHashStore := some (NewHorizonDBLedgerHashStore (env.Open postgres o.dbURL).1) }
            (env.Open postgres o.dbURL).1).2)) := by
  have hrun : Require o = none → Run env o = runConfigured env o := by
    intro h
    unfold Run
    rw [h]
  rcases hreq : Require o with _ | name
  · right
    rw [hrun hreq]
    exact runConfigured_cases env o
  · left
    exact ⟨name, rfl, by unfold Run; rw [hreq]⟩

/-- The shape of the tail of a run from engine construction on. -/
theorem startCore_cases (env : Env) (o : Options) (config : CaptiveCoreConfig)
    (dbConn : Option Session) :
    (startCore env o config dbConn =
      ([Event.newCaptive config, Event.fatal "Could not create captive core instance"],
        Outcome.exited)) ∨
    (startCore env o config dbConn =
      ([Event.newCaptive config, Event.newAPI (env.NewCaptive config).1, Event.httpRun o.port],
        Outcome.serving { core := (env.NewCaptive config).1 } dbConn)) := by
  unfold startCore
  rcases env.NewCaptive config with ⟨core, _ | err⟩
  · right; rfl
  · left; rfl


/-- The engine configurations of a run: none when it exits before engine construction,
else the one configuration, with the hash store decided by `db-url`. -/
theorem engineConfigs_Run (env : Env) (o : Options) :
    engineConfigs (Run env o).1 = [] ∨
    (o.dbURL = [] ∧ engineConfigs (Run env o).1 = [captiveConfig o] ∧
      (∃ rest, (Run env o).1 = Event.newCaptive (captiveConfig o) :: rest ∧
        ∀ d u c e, Event.dbOpen d u c e ∉ rest)) ∨
    (o.dbURL ≠ [] ∧
      engineConfigs (Run env o).1 = [{ captiveConfig o with
        LedgerHashStore := some (NewHorizonDBLedgerHashStore (env.Open postgres o.dbURL).1) }] ∧
      ∃ rest, (Run env o).1 =
        Event.dbOpen postgres o.dbURL (env.Open postgres o.dbURL).1 none ::
        Event.newHashStore (env.Open postgres o.dbURL).1 ::
        Event.newCaptive { captiveConfig o with
          LedgerHashStore := some (NewHorizonDBLedgerHashStore (env.Open postgres o.dbURL).1) } ::
        rest) := by
  rcases Run_cases env o with
    ⟨name, _, h⟩ | ⟨_, h⟩ | ⟨_, hd, h⟩ | ⟨_, _, err, _, h⟩ | ⟨_, hd, _, h⟩
  · left; rw [h]; rfl
  · left; rw [h]; rfl
  · right; left
    refine ⟨hd, ?_⟩
    rcases startCore_cases env o (captiveConfig o) none with h2 | h2
    · rw [h, h2]
      exact ⟨rfl, _, rfl, by simp⟩
    · rw [h, h2]
      exact ⟨rfl, _, rfl, by simp⟩
  · left; rw [h]; rfl
  · right; right
    refine ⟨hd, ?_⟩
    rcases startCore_cases env o { captiveConfig o with
        LedgerHashStore := some (NewHorizonDBLedgerHashStore (env.Open postgres o.dbURL).1) }
        (env.Open postgres o.dbURL).1 with h2 | h2
    · rw [h, h2]
      exact ⟨rfl, _, rfl⟩
    · rw [h, h2]
      exact ⟨rfl, _, rfl⟩

/-- C1: the engine configuration handed to `ledgerbackend.NewCaptive` by a run of the
command carries a ledger hash store if and only if `db-url` is non-empty. With a
non-empty `db-url` the run first opens a connection with `db.Open("postgres", dbURL)`,
then builds the hash store on that connection, then constructs the engine with it;
with an empty `db-url` the run opens no connection and the hash store is absent. -/
theorem engineConfig_hashStore_iff_dbURL (env : Env) (o : Options) (cfg : CaptiveCoreConfig)
    (h : cfg ∈ engineConfigs (Run env o).1) :
    (cfg.LedgerHashStore.isSome = true ↔ o.dbURL ≠ []) ∧
    (o.dbURL ≠ [] →
      cfg.LedgerHashStore =
        some (NewHorizonDBLedgerHashStore (env.Open postgres o.dbURL).1) ∧
      ∃ rest, (Run env o).1 =
        Event.dbOpen postgres o.dbURL (env.Open postgres o.dbURL).1 none ::
        Event.newHashStore (env.Open postgres o.dbURL).1 ::
        Event.newCaptive cfg :: rest) ∧
    (o.dbURL = [] →
      cfg.LedgerHashStore = none ∧ ∀ d u c e, Event.dbOpen d u c e ∉ (Run env o).1) := by
  rcases engineConfigs_Run env o with h0 | ⟨hd, hc, rest, hr, hno⟩ | ⟨hd, hc, rest, hr⟩
  · rw [h0] at h; simp at h
  · rw [hc, List.mem_singleton] at h
    subst h
    refine ⟨by simp [hd, captiveConfig], fun hne => absurd hd hne, fun _ => ⟨rfl, ?_⟩⟩
    intro d u c e
    rw [hr]
    simp only [List.mem_cons, not_or]
    exact ⟨by simp, hno d u c e⟩
  · rw [hc, List.mem_singleton] at h
    subst h
    refine ⟨by simp [hd], fun _ => ⟨rfl, rest, hr⟩, fun he => absurd he hd⟩

/-- C1 at a concrete run: with `db-url` set to `db` the engine configuration carries the
hash store built on the opened connection. -/
theorem engineConfig_hashStore_iff_dbURL_witness :
    ({ captiveConfig sampleOptions with
        LedgerHashStore := some (NewHorizonDBLedgerHashStore (some { id := 1 })) } ∈
      engineConfigs (Run okEnv sampleOptions).1) ∧
    (({ captiveConfig sampleOptions with
        LedgerHashStore := some (NewHorizonDBLedgerHashStore (some { id := 1 })) }
        : CaptiveCoreConfig).LedgerHashStore.isSome = true ↔ sampleOptions.dbURL ≠ []) :=
  ⟨by decide, (engineConfig_hashStore_iff_dbURL okEnv sampleOptions _ (by decide)).1⟩


/-- The connections a run opened and the state its stop hook holds. -/
theorem opened_Run (env : Env) (o : Options) (api : CaptiveCoreAPI) (dbConn : Option Session)
    (h : (Run env o).2 = Outcome.serving api dbConn) :
    opened (Run env o).1 = dbConn.toList ∧
    (o.dbURL = [] → dbConn = none) ∧
    (o.dbURL ≠ [] → dbConn = (env.Open postgres o.dbURL).1 ∧
      (env.Open postgres o.dbURL).2 = none) := by
  rcases Run_cases env o with
    ⟨name, _, hr⟩ | ⟨_, hr⟩ | ⟨_, hd, hr⟩ | ⟨_, _, err, _, hr⟩ | ⟨_, hd, hok, hr⟩
  · rw [hr] at h; cases h
  · rw [hr] at h; cases h
  · rcases startCore_cases env o (captiveConfig o) none with h2 | h2
    · rw [hr, h2] at h; cases h
    · rw [hr, h2] at h ⊢
      cases h
      exact ⟨rfl, fun _ => rfl, fun hne => absurd hd hne⟩
  · rw [hr] at h; cases h
  · rcases startCore_cases env o { captiveConfig o with
        LedgerHashStore := some (NewHorizonDBLedgerHashStore (env.Open postgres o.dbURL).1) }
        (env.Open postgres o.dbURL).1 with h2 | h2
    · rw [hr, h2] at h; cases h
    · rw [hr, h2] at h ⊢
      cases h
      refine ⟨?_, fun he => absurd he hd, fun _ => ⟨rfl, hok⟩⟩
      cases (env.Open postgres o.dbURL).1 <;> rfl

/-- C2: in every run of the command that reaches serving, one invocation of the stop
hook performs exactly one `api.Shutdown()`, first, and after it closes exactly the
connections the run opened with `db.Open`, each once: none when `db-url` is empty (no
close is attempted), and the one connection `db.Open` returned when `db-url` is
non-empty. -/
theorem stopHook_shutdown_then_close (env : Env) (o : Options) (api : CaptiveCoreAPI)
    (dbConn : Option Session) (h : (Run env o).2 = Outcome.serving api dbConn) :
    stopEvents (Run env o).2 =
      Event.apiShutdown api :: (opened (Run env o).1).map Event.dbClose ∧
    shutdowns (stopEvents (Run env o).2) = [api] ∧
    closed (stopEvents (Run env o).2) = opened (Run env o).1 ∧
    (opened (Run env o).1).length ≤ 1 ∧
    (o.dbURL = [] → closed (stopEvents (Run env o).2) = []) ∧
    (o.dbURL ≠ [] → ∀ c, (env.Open postgres o.dbURL).1 = some c →
      closed (stopEvents (Run env o).2) = [c]) := by
  obtain ⟨hop, hnil, hne⟩ := opened_Run env o api dbConn h
  have hstop : stopEvents (Run env o).2 =
      Event.apiShutdown api :: (opened (Run env o).1).map Event.dbClose := by
    rw [h, hop]
    cases dbConn <;> rfl
  have hclosed : closed (stopEvents (Run env o).2) = opened (Run env o).1 := by
    rw [h, hop]
    cases dbConn <;> rfl
  refine ⟨hstop, ?_, hclosed, ?_, ?_, ?_⟩
  · rw [h]; cases dbConn <;> rfl
  · rw [hop]; cases dbConn <;> simp
  · intro hd
    rw [hclosed, hop, hnil hd]; rfl
  · intro hd c hc
    rw [hclosed, hop, (hne hd).1, hc]; rfl

/-- C2 at a concrete run: the hook shuts the API down and then closes the one
connection opened from `db-url`. -/
theorem stopHook_shutdown_then_close_witness :
    (Run okEnv sampleOptions).2 = Outcome.serving { core := some { id := 1 } } (some { id := 1 }) ∧
    stopEvents (Run okEnv sampleOptions).2 =
      [Event.apiShutdown { core := some { id := 1 } }, Event.dbClose { id := 1 }] :=
  ⟨by decide,
    (stopHook_shutdown_then_close okEnv sampleOptions { core := some { id := 1 } }
      (some { id := 1 }) (by decide)).1.trans (by decide)⟩


/-- C9: for every value `s` of the `history-archive-urls` option the configured list
is the comma-separated list `s` denotes: no entry contains a comma, joining the entries
with `","` gives `s` back, and it is the only non-empty list of comma-free entries that
does (so its entries are the pieces of `s` between consecutive commas, in order). -/
theorem historyArchiveURLs_comma_separated (o : Options) :
    (∀ e ∈ (captiveConfig o).HistoryArchiveURLs, comma ∉ e) ∧
    strings.Join (captiveConfig o).HistoryArchiveURLs [comma] = o.historyArchiveURLs ∧
    (∀ l : List GoString, l ≠ [] → (∀ e ∈ l, comma ∉ e) →
      strings.Join l [comma] = o.historyArchiveURLs →
      (captiveConfig o).HistoryArchiveURLs = l) := by
  refine ⟨strings.not_mem_of_mem_Split _ _, strings.Join_Split _ _, ?_⟩
  intro l hl hmem hj
  show strings.Split o.historyArchiveURLs comma = l
  rw [← hj]
  exact strings.Split_unique comma l hl hmem

/-- C9 at a concrete value: `a,b` is configured as the two entries `a` and `b`. -/
theorem historyArchiveURLs_comma_separated_witness :
    (captiveConfig sampleOptions).HistoryArchiveURLs = [[97], [98]] ∧
    strings.Join (captiveConfig sampleOptions).HistoryArchiveURLs [comma] = [97, 44, 98] :=
  ⟨by decide, (historyArchiveURLs_comma_separated sampleOptions).2.1⟩

/-- The engine configuration of a run that passes `Require` and whose log level and
database connection are accepted: the run reaches `ledgerbackend.NewCaptive` with one
configuration, and its archive URLs are the option's value split at the commas. -/
theorem engineConfigs_Run_of_ok (env : Env) (o : Options) (hreq : Require o = none)
    (hlevel : (env.ParseLevel o.logLevel).2 = none)
    (hopen : o.dbURL ≠ [] → (env.Open postgres o.dbURL).2 = none) :
    ∃ cfg, engineConfigs (Run env o).1 = [cfg] ∧
      cfg.HistoryArchiveURLs = strings.Split o.historyArchiveURLs comma := by
  rcases engineConfigs_Run env o with h0 | ⟨_, h1, _⟩ | ⟨_, h1, _⟩
  · exfalso
    rcases Run_cases env o with
      ⟨name, hn, _⟩ | ⟨hp, _⟩ | ⟨_, _, h⟩ | ⟨_, hd, err, he, _⟩ | ⟨_, _, _, h⟩
    · rw [hreq] at hn; cases hn
    · exact hp hlevel
    · rw [h] at h0
      rcases startCore_cases env o (captiveConfig o) none with h2 | h2 <;>
        · rw [h2] at h0; cases h0
    · rw [hopen hd] at he; cases he
    · rw [h] at h0
      rcases startCore_cases env o { captiveConfig o with
          LedgerHashStore := some (NewHorizonDBLedgerHashStore (env.Open postgres o.dbURL).1) }
          (env.Open postgres o.dbURL).1 with h2 | h2 <;>
        · rw [h2] at h0; cases h0
  · exact ⟨_, h1, rfl⟩
  · exact ⟨_, h1, rfl⟩

/-- C10 fails as stated at the empty string, the flag default of
`history-archive-urls`: the option is required, so the command exits in
`configOpts.Require()` before the option's value is split. No list is configured, in
particular not the one-element list holding the empty URL, and no engine configuration
is built. -/
theorem historyArchiveURLs_blank_exits_in_Require :
    blankArchiveOptions.historyArchiveURLs = [] ∧
    configuredHistoryArchiveURLs blankArchiveOptions ≠ some [[]] ∧
    Run okEnv blankArchiveOptions =
      ([Event.invalidConfig "history-archive-urls"], Outcome.exited) ∧
    engineConfigs (Run okEnv blankArchiveOptions).1 = [] := by
  decide

/-- C10 amended: for every configuration that passes `configOpts.Require()`, so for a
non-empty value `s` of `history-archive-urls`, the configured list is `s` split at its
commas: it has exactly (number of commas in `s`) + 1 entries and is never empty; a
leading comma makes the first entry empty, a trailing comma the last entry, a doubled
comma an entry in between; and every run whose log level and database connection are
accepted hands `ledgerbackend.NewCaptive` one configuration carrying this list with
nothing filtered. -/
theorem historyArchiveURLs_length_and_empty_entries (o : Options) (hreq : Require o = none) :
    o.historyArchiveURLs ≠ [] ∧
    configuredHistoryArchiveURLs o = some (strings.Split o.historyArchiveURLs comma) ∧
    (captiveConfig o).HistoryArchiveURLs = strings.Split o.historyArchiveURLs comma ∧
    (strings.Split o.historyArchiveURLs comma).length = o.historyArchiveURLs.count comma + 1 ∧
    strings.Split o.historyArchiveURLs comma ≠ [] ∧
    (∀ t, o.historyArchiveURLs = comma :: t →
      strings.Split o.historyArchiveURLs comma = [] :: strings.Split t comma) ∧
    (∀ t, o.historyArchiveURLs = t ++ [comma] →
      strings.Split o.historyArchiveURLs comma = strings.Split t comma ++ [[]]) ∧
    (∀ a b, o.historyArchiveURLs = a ++ comma :: comma :: b →
      strings.Split o.historyArchiveURLs comma =
        strings.Split a comma ++ [] :: strings.Split b comma) ∧
    (∀ env : Env, (env.ParseLevel o.logLevel).2 = none →
      (o.dbURL ≠ [] → (env.Open postgres o.dbURL).2 = none) →
      ∃ cfg, engineConfigs (Run env o).1 = [cfg] ∧
        cfg.HistoryArchiveURLs = strings.Split o.historyArchiveURLs comma) := by
  refine ⟨?_, ?_, rfl, strings.length_Split _ _, strings.Split_ne_nil _ _, ?_, ?_, ?_, ?_⟩
  · intro hs
    unfold Require at hreq
    rw [hs] at hreq
    split_ifs at hreq with h1 h2 h3
    exact h3 rfl
  · unfold configuredHistoryArchiveURLs
    rw [hreq]
    rfl
  · intro t h
    rw [h]
    exact @strings.Split_append_sep [] comma (by simp) t
  · intro t h
    rw [h, strings.Split_append]; rfl
  · intro a b h
    rw [h, strings.Split_append]
    congr 1
    exact @strings.Split_append_sep [] comma (by simp) b
  · intro env hlevel hopen
    exact engineConfigs_Run_of_ok env o hreq hlevel hopen

/-- C10 amended, at a concrete run: with `history-archive-urls` set to `,a,,` the
configured list is the four entries empty, `a`, empty, empty, and the run hands exactly
that list to `ledgerbackend.NewCaptive`. -/
theorem historyArchiveURLs_length_and_empty_entries_witness :
    Require commaOptions = none ∧
    configuredHistoryArchiveURLs commaOptions = some [[], [97], [], []] ∧
    (engineConfigs (Run okEnv commaOptions).1).map CaptiveCoreConfig.HistoryArchiveURLs =
      [[[], [97], [], []]] :=
  ⟨by decide,
    (historyArchiveURLs_length_and_empty_entries commaOptions (by decide)).2.1.trans
      (by decide),
    by decide⟩

end captivecore

/-! ## Theorems: `PlanMigration` and `Migrate` -/

namespace dbmigrate

/-- The append loop of `PlanMigration` collects the ids in order. -/
theorem foldl_append_ids (ms : List PlannedMigration) (acc : List GoString) :
    ms.foldl (fun ids m => ids ++ [m.Id]) acc = acc ++ ms.map PlannedMigration.Id := by
  induction ms generalizing acc with
  | nil => simp
  | cons m ms ih => simp [List.foldl_cons, ih]

/-- C5: `PlanMigration` asks the migration library for the plan with exactly the
arguments `Migrate` passes to `ExecMax` (the database's `*sql.DB`, its driver name,
`migrationSource`, the direction and the count). When the plan succeeds with
migrations `m1..mn` the result is the list `[m1.Id, ..., mn.Id]`, same length and same
order, with no error; when the plan fails the result is nil and that same error. -/
theorem PlanMigration_ids_of_plan (lib : MigrateLib) (db : SqlxDB) (dir : MigrationDirection)
    (count : Int) :
    Migrate lib db dir count = lib.ExecMax db.DB db.DriverName migrationSource dir count ∧
    ((lib.PlanMigration db.DB db.DriverName migrationSource dir count).2.2 = none →
      PlanMigration lib db dir count =
        (some ((lib.PlanMigration db.DB db.DriverName migrationSource dir count).1.map
          PlannedMigration.Id), none) ∧
      ∀ ids, (PlanMigration lib db dir count).1 = some ids →
        ids.length = (lib.PlanMigration db.DB db.DriverName migrationSource dir count).1.length ∧
        ∀ (i : Nat) (m : PlannedMigration),
          (lib.PlanMigration db.DB db.DriverName migrationSource dir count).1[i]? = some m →
            ids[i]? = some m.Id) ∧
    (∀ err, (lib.PlanMigration db.DB db.DriverName migrationSource dir count).2.2 = some err →
      PlanMigration lib db dir count = (none, some err)) := by
  refine ⟨rfl, ?_, ?_⟩
  · intro h
    have hp : PlanMigration lib db dir count =
        (some ((lib.PlanMigration db.DB db.DriverName migrationSource dir count).1.map
          PlannedMigration.Id), none) := by
      unfold PlanMigration
      rcases hr : lib.PlanMigration db.DB db.DriverName migrationSource dir count with
        ⟨ms, u, e⟩
      rw [hr] at h
      simp only at h
      subst h
      simp [foldl_append_ids]
    refine ⟨hp, ?_⟩
    intro ids hids
    rw [hp] at hids
    simp only [Option.some.injEq] at hids
    subst hids
    refine ⟨by simp, ?_⟩
    intro i m hm
    simp [List.getElem?_map, hm]
  · intro err h
    unfold PlanMigration
    rcases hr : lib.PlanMigration db.DB db.DriverName migrationSource dir count with
      ⟨ms, u, e⟩
    rw [hr] at h
    simp only at h
    subst h
    rfl


/-- C5 at a concrete plan: two planned migrations `1` and `2` give the ids `1`, `2`. -/
theorem PlanMigration_ids_of_plan_witness :
    PlanMigration (limitLib twoPending) sampleDB MigrationDirection.Up 0 =
      (some [[49], [50]], none) :=
  ((PlanMigration_ids_of_plan (limitLib twoPending) sampleDB MigrationDirection.Up 0).2.1
    (by decide)).1.trans (by decide)

/-- C6, the code at the failing input: `Migrate(db, migrate.Up, 0)` on a postgres
database with two migrations outstanding. `Migrate` hands the count 0 to `ExecMax`,
for which 0 means no limit: both migrations are applied and `Migrate` reports 2 with no
error, more than the count. -/
theorem Migrate_zero_count_exceeds :
    Migrate (limitLib twoPending) sampleDB MigrationDirection.Up 0 = (2, none) ∧
    ¬ ((Migrate (limitLib twoPending) sampleDB MigrationDirection.Up 0).1 ≤ 0) := by
  decide

end dbmigrate

/-! ## Theorems: the Request Coordinator -/

namespace coordinator

/-- What a successful `NextLedger` call implies about the coordinator before and after. -/
theorem NextLedger_ok {σ : Type} (E : ReplayEngine σ) (c : Coordinator σ) (l : Ledger)
    (h : (NextLedger E c).1 = Except.ok l) :
    c.state.closed = false ∧ c.failure = false ∧
    l.sequence = c.state.nextExpectedSeq ∧
    (∃ r, c.state.preparedRange = some r ∧ r.from_ ≤ c.state.nextExpectedSeq ∧
      (r.to_ ≠ 0 → c.state.nextExpectedSeq < r.to_)) ∧
    (NextLedger E c).2.state =
      { c.state with nextExpectedSeq := (c.state.nextExpectedSeq + 1) % 4294967296 } ∧
    (NextLedger E c).2.failure = false := by
  unfold NextLedger at h ⊢
  by_cases hc : c.state.closed = true
  · simp [hc] at h
  by_cases hf : c.failure = true
  · simp [hc, hf] at h
  simp only [hc, hf, Bool.false_eq_true, if_false] at h ⊢
  rcases hr : c.state.preparedRange with _ | r
  · simp [hr] at h
  simp only [hr] at h ⊢
  by_cases h1 : c.state.nextExpectedSeq < r.from_
  · simp [h1] at h
  by_cases h2 : r.to_ ≠ 0 ∧ r.to_ ≤ c.state.nextExpectedSeq
  · simp [h1, h2] at h
  simp only [h1, h2, if_false] at h ⊢
  rcases hg : E.GetLedger c.engine c.state.nextExpectedSeq with ⟨_ | l2, e⟩
  · simp [hg] at h
  simp only [hg] at h ⊢
  by_cases h3 : l2.sequence = c.state.nextExpectedSeq
  · simp only [h3, if_true] at h ⊢
    cases h
    refine ⟨trivial, trivial, h3, ⟨r, rfl, by omega, ?_⟩, trivial, trivial⟩
    intro hz
    by_contra hlt
    exact h2 ⟨hz, by omega⟩
  · simp [h3] at h

/-- What a successful `Prepare` call leaves behind. -/
theorem Prepare_ok {σ : Type} (E : ReplayEngine σ) (c : Coordinator σ) (r : LedgerRange)
    (h : (Prepare E c r).1 = none) :
    r.valid = true ∧ (Prepare E c r).2.state.closed = false ∧
    (Prepare E c r).2.failure = false ∧
    ((Prepare E c r).2.state.preparedRange = some r →
      (Prepare E c r).2.state.nextExpectedSeq ≤ r.from_) := by
  unfold Prepare at h ⊢
  by_cases hc : c.state.closed = true
  · simp [hc] at h
  by_cases hf : c.failure = true
  · simp [hc, hf] at h
  by_cases hv : r.valid = true
  swap
  · simp [hc, hf, hv] at h
  simp only [hc, hf, hv, Bool.false_eq_true, if_false, Bool.not_true] at h ⊢
  have hc2 : c.state.closed = false := by simpa using hc
  have hf2 : c.failure = false := by simpa using hf
  have install : (Prepare.install E c r).1 = none →
      True ∧ (Prepare.install E c r).2.state.closed = false ∧
        (Prepare.install E c r).2.failure = false ∧
        ((Prepare.install E c r).2.state.preparedRange = some r →
          (Prepare.install E c r).2.state.nextExpectedSeq ≤ r.from_) := by
    unfold Prepare.install
    rcases hp : E.PrepareRange c.engine r with ⟨_ | err, e⟩
    · intro _
      exact ⟨trivial, hc2, hf2, fun _ => le_refl _⟩
    · intro hx1
      cases hx1
  rcases hr : c.state.preparedRange with _ | p
  · simp only [hr] at h ⊢
    exact install h
  · simp only [hr] at h ⊢
    by_cases h1 : r.from_ < c.state.nextExpectedSeq
    · simp [h1] at h
    simp only [h1, if_false] at h ⊢
    by_cases h2 : p.covers r = true
    · simp only [h2, if_true] at h ⊢
      exact ⟨trivial, hc2, hf2, fun _ => by omega⟩
    · simp only [h2, Bool.false_eq_true, if_false] at h ⊢
      exact install h


/-- A run of `n` successful `NextLedger` calls from cursor `s` returns `s, s+1, ...`
and leaves the cursor `n` further, the range and the flags unchanged. -/
theorem NextLedgers_ok {σ : Type} (E : ReplayEngine σ) (r : LedgerRange) (hfrom : 1 ≤ r.from_) :
    ∀ (n : Nat) (c : Coordinator σ), c.state.preparedRange = some r →
      c.state.nextExpectedSeq < 4294967296 →
      (∀ x ∈ (NextLedgers E n c).1, (returnedSeq x).isSome = true) →
      (NextLedgers E n c).1.map returnedSeq =
        (List.range n).map (fun k => some (c.state.nextExpectedSeq + k)) ∧
      (NextLedgers E n c).2.state.preparedRange = some r ∧
      (NextLedgers E n c).2.state.closed = c.state.closed ∧
      (NextLedgers E n c).2.failure = c.failure ∧
      (NextLedgers E n c).2.state.nextExpectedSeq = (c.state.nextExpectedSeq + n) % 4294967296 ∧
      (0 < n → r.from_ ≤ c.state.nextExpectedSeq ∧
        (r.to_ ≠ 0 → c.state.nextExpectedSeq + n ≤ r.to_)) := by
  intro n
  induction n with
  | zero =>
    intro c hr hlt _
    refine ⟨rfl, hr, rfl, rfl, ?_, fun h => absurd h (by decide)⟩
    show c.state.nextExpectedSeq = _
    rw [Nat.add_zero, Nat.mod_eq_of_lt hlt]
  | succ n ih =>
    intro c hr hlt hall
    have hall1 : (returnedSeq (NextLedger E c).1).isSome = true :=
      hall _ (by simp [NextLedgers])
    have halln : ∀ x ∈ (NextLedgers E n (NextLedger E c).2).1,
        (returnedSeq x).isSome = true := fun x hx => hall x (by simp [NextLedgers, hx])
    rcases hres : (NextLedger E c).1 with k | l
    · rw [hres] at hall1; cases hall1
    obtain ⟨hcl, hfl, hseq, ⟨r2, hr2, hge, hto⟩, hst, hfail⟩ := NextLedger_ok E c l hres
    rw [hr] at hr2
    cases hr2
    have hr1 : (NextLedger E c).2.state.preparedRange = some r := by rw [hst]; exact hr
    have hc1 : (NextLedger E c).2.state.nextExpectedSeq =
        (c.state.nextExpectedSeq + 1) % 4294967296 := by rw [hst]
    have hlt1 : (NextLedger E c).2.state.nextExpectedSeq < 4294967296 := by
      rw [hc1]; exact Nat.mod_lt _ (by decide)
    obtain ⟨i1, i2, i3, i4, i5, i6⟩ := ih (NextLedger E c).2 hr1 hlt1 halln
    -- the cursor did not wrap when further calls succeed
    have hnowrap : 0 < n → (NextLedger E c).2.state.nextExpectedSeq =
        c.state.nextExpectedSeq + 1 := by
      intro hn
      have := (i6 hn).1
      rw [hc1] at this ⊢
      by_cases hw : c.state.nextExpectedSeq + 1 < 4294967296
      · exact Nat.mod_eq_of_lt hw
      · have : c.state.nextExpectedSeq + 1 = 4294967296 := by omega
        rw [this] at *
        simp at *
        omega
    refine ⟨?_, ?_, ?_, ?_, ?_, ?_⟩
    · show returnedSeq (NextLedger E c).1 ::
        (NextLedgers E n (NextLedger E c).2).1.map returnedSeq = _
      rw [hres, i1, List.range_succ_eq_map]
      simp only [returnedSeq, hseq, List.map_cons, List.map_map, Nat.add_zero]
      congr 1
      rcases Nat.eq_zero_or_pos n with hn | hn
      · subst hn; rfl
      · rw [hnowrap hn]
        apply List.map_congr_left
        intro k _
        simp only [Function.comp]
        congr 1
        omega
    · exact i2
    · show (NextLedgers E n (NextLedger E c).2).2.state.closed = _
      rw [i3, hst]
    · show (NextLedgers E n (NextLedger E c).2).2.failure = _
      rw [i4, hfail, hfl]
    · show (NextLedgers E n (NextLedger E c).2).2.state.nextExpectedSeq = _
      rw [i5, hc1, Nat.mod_add_mod]
      congr 1
      omega
    · intro _
      refine ⟨hge, fun hz => ?_⟩
      rcases Nat.eq_zero_or_pos n with hn | hn
      · subst hn; have := hto hz; omega
      · have h6 := (i6 hn).2 hz
        rw [hnowrap hn] at h6
        omega


theorem valid_bounds {r : LedgerRange} (h : r.valid = true) :
    1 ≤ r.from_ ∧ r.from_ < 4294967296 ∧ r.to_ < 4294967296 := by
  unfold LedgerRange.valid at h
  simp only [Bool.and_eq_true, decide_eq_true_eq] at h
  exact ⟨h.1.1.1, h.1.2, h.2⟩

/-- C4 (against the coordinator modelled from the design document): after a successful
`Prepare(r)` that leaves `r` as the prepared range, every run of `n` successful
`NextLedger` calls returns the sequence numbers `r.from, r.from + 1, ...,
r.from + n - 1` in call order; and when the run has used up a bounded range
(`r.from + n = r.to`, as the five calls on `{from:100, to:105}` do) the next call fails
with `OutOfRange`. -/
theorem NextLedger_sequences_from_range_start {σ : Type} (E : ReplayEngine σ)
    (c : Coordinator σ) (r : LedgerRange) (n : Nat)
    (hprep : (Prepare E c r).1 = none)
    (hrange : (Prepare E c r).2.state.preparedRange = some r)
    (hok : ∀ x ∈ (NextLedgers E n (Prepare E c r).2).1, (returnedSeq x).isSome = true) :
    (NextLedgers E n (Prepare E c r).2).1.map returnedSeq =
      (List.range n).map (fun k => some (r.from_ + k)) ∧
    (0 < n → r.to_ ≠ 0 → r.from_ + n = r.to_ →
      failedWith (NextLedger E (NextLedgers E n (Prepare E c r).2).2).1 =
        some ErrorKind.OutOfRange) := by
  obtain ⟨hvalid, hclosed, hfail, hcur⟩ := Prepare_ok E c r hprep
  obtain ⟨hfrom, hfromlt, htolt⟩ := valid_bounds hvalid
  have hle := hcur hrange
  obtain ⟨h1, h2, h3, h4, h5, h6⟩ :=
    NextLedgers_ok E r hfrom n (Prepare E c r).2 hrange (by omega) hok
  rcases Nat.eq_zero_or_pos n with hn | hn
  · subst hn
    exact ⟨rfl, fun h => absurd h (by decide)⟩
  · have heq : (Prepare E c r).2.state.nextExpectedSeq = r.from_ := by
      have := (h6 hn).1
      omega
    rw [heq] at h1 h5
    refine ⟨h1, fun _ hz hto => ?_⟩
    rw [hto, Nat.mod_eq_of_lt htolt] at h5
    rw [hclosed] at h3
    rw [hfail] at h4
    have hnot : ¬ (r.to_ < r.from_) := by omega
    unfold NextLedger
    simp only [h2, h3, h4, h5, Bool.false_eq_true, if_false, hnot]
    rw [if_pos ⟨hz, le_refl _⟩]
    rfl

/-- C4 at the scenario of the design document, with an engine that serves every
request: `Prepare({from:100, to:105})` succeeds, five `NextLedger` calls return
100, 101, 102, 103, 104 in order and the sixth fails with `OutOfRange`. -/
theorem NextLedger_sequences_from_range_start_witness :
    (Prepare healthyEngine (Coordinator.start 0) { from_ := 100, to_ := 105 }).1 = none ∧
    (NextLedgers healthyEngine 5
      (Prepare healthyEngine (Coordinator.start 0) { from_ := 100, to_ := 105 }).2).1.map
        returnedSeq = [some 100, some 101, some 102, some 103, some 104] ∧
    failedWith (NextLedger healthyEngine (NextLedgers healthyEngine 5
      (Prepare healthyEngine (Coordinator.start 0) { from_ := 100, to_ := 105 }).2).2).1 =
        some ErrorKind.OutOfRange :=
  have h := NextLedger_sequences_from_range_start healthyEngine (Coordinator.start 0)
    { from_ := 100, to_ := 105 } 5 (by decide) (by decide) (by decide)
  ⟨by decide, h.1.trans (by decide), h.2 (by decide) (by decide) (by decide)⟩

end coordinator
